import Mathlib

/-!
Verification development for the chat-session / telemetry core of the
repository: `packages/core/src/core/geminiChat.ts` and
`packages/core/src/telemetry/userBehaviorLogger.ts`.

The TypeScript data model and operations are shallowly embedded.
Machine integers are `Nat`; JS optional values are `Option`; JS arrays are
`List`; fallible paths return `Except`.  File contents are abstracted to
their byte sizes (the only observable the logger's rotation logic reads),
and wall-clock durations, generated UUIDs and the ISO timestamp rendering
are threaded as explicit parameters.
-/

namespace QwenCore

/-! ## Data model: `Content`, `Part`, roles (from `@google/genai` as used by geminiChat.ts)

History is validated at session construction (`validateHistory` throws unless
every role is `user` or `model`), so `Role` is total with those two values. -/

inductive Role
  | user
  | model
deriving DecidableEq, Repr

/-- One part of a content: the fields of the genai `Part` object that geminiChat.ts
reads (`text`, `thought`, `functionCall`, `functionResponse`).  Payloads of tool
invocations and tool results are abstracted to strings. -/
structure Part where
  text : Option String := none
  thought : Option Bool := none
  functionCall : Option String := none
  functionResponse : Option String := none
deriving DecidableEq, Repr

/-- One turn: a role and an optional ordered list of parts (`parts` may be
`undefined` in JS, hence `Option`). -/
structure Content where
  role : Role
  parts : Option (List Part) := none
deriving DecidableEq, Repr

/-- JS `Object.keys(part).length === 0`: the part object has none of its fields set. -/
def Part.isEmptyObj (p : Part) : Bool :=
  p.text.isNone && p.thought.isNone && p.functionCall.isNone && p.functionResponse.isNone

/-- Translation of `isValidContent` (geminiChat.ts lines 51-64): parts must be
present and non-empty, no part may be an empty object, and a part whose `text`
is the empty string is invalid unless the part is a thought marker
(`!part.thought && part.text !== undefined && part.text === ''`). -/
def isValidContent (content : Content) : Bool :=
  match content.parts with
  | none => false
  | some parts =>
    if parts.length = 0 then false
    else parts.all fun part =>
      if part.isEmptyObj then false
      else if part.thought ≠ some true && part.text = some "" then false
      else true

/-! ## History curation (`extractCuratedHistory`, geminiChat.ts lines 88-118)

The source walks the comprehensive history with an index: a `user` turn is
pushed and the index advances; otherwise the maximal run of consecutive
`model` turns is collected, pushed if every turn in it is valid, and if any
turn is invalid the run is discarded and `curatedHistory.pop()` removes the
previously pushed user turn.  `curateGo`'s accumulator plays the role of the
`curatedHistory` array; `pop` is `dropLast`. -/

def isModelRole (c : Content) : Bool := c.role == Role.model

/-- Main loop of `extractCuratedHistory`.  The source's outer `while i < length`
advances by at least one element per iteration (the inner
`while i < length && role === 'model'` is `takeWhile`/`dropWhile` of the maximal
model run), so the loop is embedded with a fuel argument bounded below by the
remaining list length; `extractCuratedHistory` supplies exactly enough fuel.
The accumulator plays the role of the `curatedHistory` array; `pop` is
`dropLast`. -/
def curateGo : Nat → List Content → List Content → List Content
  | 0, _, acc => acc
  | _ + 1, [], acc => acc
  | fuel + 1, c :: rest, acc =>
    if c.role = Role.user then
      curateGo fuel rest (acc ++ [c])
    else
      let run := List.takeWhile isModelRole (c :: rest)
      let rest1 := List.dropWhile isModelRole (c :: rest)
      if run.all isValidContent then curateGo fuel rest1 (acc ++ run)
      else curateGo fuel rest1 acc.dropLast

def extractCuratedHistory (comprehensiveHistory : List Content) : List Content :=
  curateGo comprehensiveHistory.length comprehensiveHistory []

/-! ## The curation algorithm as the specification states it

The spec describes curation by decomposing the history into blocks: each user
turn passes through unchanged, and each maximal run of consecutive model
turns is kept only if every turn in it is content-valid; an invalid run is
dropped together with the user turn immediately preceding it.  `specBlocks`
performs that decomposition and `curateBySpecRuns` processes the blocks. -/

/-- Block decomposition of a history, with the same fuel discipline as
`curateGo`: each user turn is its own block, and each maximal run of
consecutive model turns is one block. -/
def specBlocksGo : Nat → List Content → List (List Content)
  | 0, _ => []
  | _ + 1, [] => []
  | fuel + 1, c :: rest =>
    if c.role = Role.user then [c] :: specBlocksGo fuel rest
    else
      List.takeWhile isModelRole (c :: rest)
        :: specBlocksGo fuel (List.dropWhile isModelRole (c :: rest))

def specBlocks (h : List Content) : List (List Content) :=
  specBlocksGo h.length h

def specStep (acc : List Content) (g : List Content) : List Content :=
  match g with
  | [] => acc
  | c :: _ =>
    if c.role = Role.user then acc ++ g
    else if g.all isValidContent then acc ++ g
    else acc.dropLast

def curateBySpecRuns (h : List Content) : List Content :=
  (specBlocks h).foldl specStep []

/-- Convenience constructor: a user turn holding one text part. -/
def userText (s : String) : Content :=
  { role := Role.user, parts := some [{ text := some s }] }

/-- Convenience constructor: a model turn holding one text part. -/
def modelText (s : String) : Content :=
  { role := Role.model, parts := some [{ text := some s }] }

/-! ## Request classifier helpers (geminiChat.ts lines 148-317)

These are the pure helper methods of `GeminiChat` that annotate a request
before it is sent.  JS `String.prototype.includes` is substring containment
and `toLowerCase` is per-character lowering. -/

/-- JS truthiness of an optional string: `undefined` and `""` are falsy. -/
def jsTruthyStr : Option String → Bool
  | some s => s ≠ ""
  | none => false

def lowerChars (s : String) : List Char := s.data.map Char.toLower

/-- Substring containment on character lists (JS `includes`). -/
def charsContain (hay : List Char) (needle : String) : Bool :=
  hay.tails.any fun t => needle.data.isPrefixOf t

inductive OperationType
  | chat
  | toolCall
  | completion
  | embedding
  | unknown
deriving DecidableEq, Repr

/-- Translation of `_detectOperationType` (lines 149-175). -/
def detectOperationType (contents : List Content) : OperationType :=
  if contents.any (fun c => c.role == Role.model &&
      (c.parts.getD []).any fun p => p.functionCall.isSome) then
    OperationType.toolCall
  else if contents.length > 1 then OperationType.chat
  else if contents.length = 1 then OperationType.chat
  else OperationType.unknown

/-- Keyword scan of one text part (lines 190-215), lowercased first. -/
def toolsForText (textRaw : String) : List String :=
  let text := lowerChars textRaw
  (if charsContain text "@" || charsContain text "read" || charsContain text "file"
   then ["read_file"] else [])
  ++ (if charsContain text "write" || charsContain text "create" || charsContain text "save"
      then ["write_file"] else [])
  ++ (if charsContain text "edit" || charsContain text "modify" || charsContain text "change"
      then ["replace"] else [])
  ++ (if charsContain text "search" || charsContain text "find" || charsContain text "grep"
      then ["search_file_content"] else [])
  ++ (if charsContain text "list" || charsContain text "ls" || charsContain text "directory"
      then ["list_directory"] else [])
  ++ (if charsContain text "run" || charsContain text "execute" || charsContain text "bash"
        || charsContain text "command"
      then ["run_shell_command"] else [])
  ++ (if charsContain text "web" || charsContain text "http" || charsContain text "url"
      then ["web_fetch"] else [])

/-- First-occurrence deduplication: JS `[...new Set(l)]` keeps insertion order. -/
def dedupFirstGo : List String → List String → List String
  | [], _ => []
  | x :: xs, seen =>
    if seen.contains x then dedupFirstGo xs seen
    else x :: dedupFirstGo xs (x :: seen)

def dedupFirst (l : List String) : List String := dedupFirstGo l []

/-- Translation of `_extractToolsCalled` (lines 178-223): find the most recent
user turn (`contents.slice().reverse().find(role === 'user')`), accumulate the
keyword matches over its text parts, and deduplicate. -/
def extractToolsCalled (contents : List Content) : List String :=
  let latestUserContent := contents.reverse.find? fun c => c.role == Role.user
  let potentialTools : List String :=
    match latestUserContent with
    | none => []
    | some latest =>
      match latest.parts with
      | none => []
      | some parts =>
        parts.foldl (fun acc p =>
          match p.text with
          | some t => acc ++ toolsForText t
          | none => acc) []
  dedupFirst potentialTools

inductive RequestContext
  | new
  | continuation
  | toolResult
deriving DecidableEq, Repr

/-- Translation of `_determineRequestContext` (lines 226-251). -/
def determineRequestContext (contents : List Content) : RequestContext :=
  match contents.getLast? with
  | none => RequestContext.new
  | some lastContent =>
    if lastContent.role == Role.user &&
        ((lastContent.parts.getD []).any fun p => p.functionResponse.isSome) then
      RequestContext.toolResult
    else if contents.length > 1 then RequestContext.continuation
    else RequestContext.new

/-- Translation of `_estimateTokens` (lines 254-269): `ceil(length / 4)` per text part. -/
def estimateTokens (contents : List Content) : Nat :=
  contents.foldl (fun acc c =>
    (c.parts.getD []).foldl (fun acc2 p =>
      match p.text with
      | some t => acc2 + (t.length + 3) / 4
      | none => acc2) acc) 0

/-- Translation of `_hasFileContext` (lines 272-292). -/
def hasFileContextFn (contents : List Content) : Bool :=
  contents.any fun c => (c.parts.getD []).any fun p =>
    match p.text with
    | some t =>
      charsContain t.data "file:" || charsContain t.data ".txt"
        || charsContain t.data ".js" || charsContain t.data ".ts"
        || charsContain t.data ".py" || charsContain t.data ".json"
    | none => false

/-- The shapes `systemInstruction` may take (a plain string, an object with a
`parts` sequence, or an object with a `text` field), per `_getSystemPromptLength`. -/
inductive SystemInstruction
  | str (s : String)
  | withParts (parts : Option (List Part))
  | withText (text : Option String)
deriving DecidableEq, Repr

/-- Translation of `_getSystemPromptLength` (lines 295-317). -/
def getSystemPromptLength (systemInstruction : Option SystemInstruction) : Nat :=
  match systemInstruction with
  | none => 0
  | some (SystemInstruction.str s) => s.length
  | some (SystemInstruction.withParts ps) =>
    (((ps.getD []).map fun p => p.text.getD "").foldl (· ++ ·) "").length
  | some (SystemInstruction.withText t) => (t.getD "").length

/-! ## Responses, usage metadata and response classification -/

/-- Usage metadata attached to a response or chunk (spec section 6). -/
structure UsageMetadata where
  inputTokenCount : Option Nat := none
  outputTokenCount : Option Nat := none
  cachedContentTokenCount : Option Nat := none
  thoughtsTokenCount : Option Nat := none
  totalTokenCount : Option Nat := none
deriving DecidableEq, Repr

structure Candidate where
  content : Option Content := none
deriving DecidableEq, Repr

/-- A `GenerateContentResponse` as read by geminiChat.ts.  `isChunk` models the
duck-typed `(response as any).isChunk` probe in `_detectResponseType`; the real
API response never sets it, but the field is what the code reads. -/
structure Response where
  candidates : Option (List Candidate) := none
  usageMetadata : Option UsageMetadata := none
  automaticFunctionCallingHistory : Option (List Content) := none
  isChunk : Bool := false
deriving DecidableEq, Repr

/-- Translation of `isValidResponse` (lines 40-49). -/
def isValidResponse (response : Response) : Bool :=
  match response.candidates with
  | none => false
  | some [] => false
  | some (cand :: _) =>
    match cand.content with
    | none => false
    | some content => isValidContent content

inductive ResponseType
  | toolCall
  | textResponse
  | mixed
  | error
  | streamingChunk
deriving DecidableEq, Repr

/-- What `JSON.parse` of the `responseText` argument of `_logApiResponse`
yields: `sendMessage` passes one stringified response, the streaming path
passes the stringified array of collected chunks, and a parse failure leaves
`null`.  The JSON round-trip is the identity on the structured value. -/
inductive ParsedResponse
  | single (r : Response)
  | chunkList (rs : List Response)
deriving DecidableEq, Repr

def candidateHasFunctionCall (cand : Candidate) : Bool :=
  ((cand.content.map fun c => c.parts.getD []).getD []).any fun p => p.functionCall.isSome

def candidateHasText (cand : Candidate) : Bool :=
  ((cand.content.map fun c => c.parts.getD []).getD []).any fun p => jsTruthyStr p.text

/-- Translation of `_detectResponseType` (lines 359-400).  A parsed chunk list
(a JSON array) has no `candidates` field and no `isChunk` flag, so it falls to
`error`, as the source does for stringified streaming chunk arrays. -/
def detectResponseType (response : Option ParsedResponse) : ResponseType :=
  match response with
  | none => ResponseType.error
  | some (ParsedResponse.chunkList _) => ResponseType.error
  | some (ParsedResponse.single r) =>
    match r.candidates with
    | none => if r.isChunk then ResponseType.streamingChunk else ResponseType.error
    | some candidates =>
      let hasToolCalls := candidates.any candidateHasFunctionCall
      let hasText := candidates.any candidateHasText
      if hasToolCalls && hasText then ResponseType.mixed
      else if hasToolCalls then ResponseType.toolCall
      else if hasText then ResponseType.textResponse
      else ResponseType.error

/-! ## Telemetry events emitted by the chat session -/

/-- Events built by `_logApiRequest` / `_logApiResponse` / `_logApiError`
(constructor argument order follows the `ApiRequestEvent`, `ApiResponseEvent`
and `ApiErrorEvent` constructors). -/
inductive TelemetryEvent
  | apiRequest (model promptId requestId : String) (requestText : String)
      (operationType : OperationType) (toolsCalled : List String)
      (requestContext : RequestContext) (estimatedTokens conversationTurn : Nat)
      (hasFileContext : Bool) (systemPromptLength : Nat)
  | apiResponse (model : String) (durationMs : Nat) (promptId requestId : String)
      (authType : Option String) (usageMetadata : UsageMetadata)
      (responseText : Option String) (responseType : ResponseType)
  | apiError (model errorMessage : String) (durationMs : Nat) (promptId : String)
      (authType : Option String) (errorType : String)
deriving DecidableEq, Repr

def TelemetryEvent.isApiResponse : TelemetryEvent → Bool
  | TelemetryEvent.apiResponse .. => true
  | _ => false

def TelemetryEvent.isApiError : TelemetryEvent → Bool
  | TelemetryEvent.apiError .. => true
  | _ => false

/-- A JS `Error` as read by `_logApiError`: its `message` and its class name. -/
structure ErrInfo where
  message : String
  name : String := "Error"
deriving DecidableEq, Repr

/-- Session configuration read through `this.config` (collaborator contract). -/
structure ChatConfig where
  model : String
  authType : Option String := none
  quotaErrorOccurred : Bool := false
deriving DecidableEq, Repr

/-- Mutable state of a `GeminiChat`: the comprehensive history and the
`loggedResponses` set (insertion-ordered, as a JS `Set`). -/
structure ChatState where
  history : List Content
  loggedResponses : List String := []
deriving DecidableEq, Repr

/-- Canonical rendering standing in for `JSON.stringify` where the exact JSON
syntax is irrelevant to every claim; only determinism matters. -/
def renderContents (contents : List Content) : String := toString (repr contents)

def renderParsed (response : Option ParsedResponse) : Option String :=
  response.map fun r => toString (repr r)

/-- Translation of `_logApiRequest` (lines 319-356); `crypto.randomUUID` is
modelled by the `requestId` parameter. -/
def logApiRequestEvents (generationCfg : Option SystemInstruction)
    (contents : List Content) (model promptId requestId : String) :
    List TelemetryEvent :=
  [TelemetryEvent.apiRequest model promptId requestId (renderContents contents)
    (detectOperationType contents) (extractToolsCalled contents)
    (determineRequestContext contents) (estimateTokens contents)
    ((contents.length + 1) / 2) (hasFileContextFn contents)
    (getSystemPromptLength generationCfg)]

/-- Cleanup branch of `_logApiResponse` (lines 427-430): when more than 100 ids
are tracked, the oldest 50 (insertion order) are dropped. -/
def cleanupLoggedResponses (s : List String) : List String :=
  if s.length > 100 then s.drop 50 else s

/-- Translation of `_logApiResponse` (lines 402-460).  Without usage metadata
nothing is logged.  The requestId-based duplicate check (lines 419-424) is
commented out in the source ("DEBUG: Temporarily disable duplicate
prevention"), so this embedding performs no membership test on
`loggedResponses` and never inserts into it; only the size-bounded cleanup
(lines 427-430) is live code. -/
def logApiResponse (cfg : ChatConfig) (st : ChatState)
    (durationMs : Nat) (promptId requestId : String)
    (usageMetadata : Option UsageMetadata) (response : Option ParsedResponse) :
    ChatState × List TelemetryEvent :=
  match usageMetadata with
  | none => (st, [])
  | some usage =>
    let st1 : ChatState :=
      { st with loggedResponses := cleanupLoggedResponses st.loggedResponses }
    (st1, [TelemetryEvent.apiResponse cfg.model durationMs promptId requestId
      cfg.authType usage (renderParsed response) (detectResponseType response)])

/-- Translation of `_logApiError` (lines 462-481). -/
def logApiErrorEvents (cfg : ChatConfig) (durationMs : Nat) (e : ErrInfo)
    (promptId : String) : List TelemetryEvent :=
  [TelemetryEvent.apiError cfg.model e.message durationMs promptId
    cfg.authType e.name]

/-! ## History commit (`recordHistory`, geminiChat.ts lines 864-948) -/

/-- Translation of `isTextContent` (lines 950-961). -/
def isTextContent (content : Option Content) : Bool :=
  match content with
  | none => false
  | some c =>
    c.role == Role.model &&
      match c.parts with
      | some (p :: _) =>
        (match p.text with
         | some t => t ≠ ""
         | none => false)
      | _ => false

/-- Translation of `isThoughtContent` (lines 963-974). -/
def isThoughtContent (content : Option Content) : Bool :=
  match content with
  | none => false
  | some c =>
    c.role == Role.model &&
      match c.parts with
      | some (p :: _) => p.thought == some true
      | _ => false

/-- Modelled from the spec: `isFunctionResponse` lives in
`utils/messageInspectors.ts`, which is not among the provided sources.  Per the
spec's classification a function-response message is a user turn whose parts
are all tool-result parts. -/
def isFunctionResponse (c : Content) : Bool :=
  c.role == Role.user && c.parts.isSome &&
    (c.parts.getD []).all fun p => p.functionResponse.isSome

/-- Text-merge of two pure-text model turns (lines 912-918 and 930-945):
`lastContent.parts[0].text += content.parts[0].text || ''` and the remaining
parts of `content` are pushed onto `lastContent.parts`. -/
def appendTextAndExtras (lastContent content : Content) : Content :=
  match lastContent.parts, content.parts with
  | some (lp :: lrest), some (cp :: crest) =>
    let lp2 : Part := { lp with text := some ((lp.text.getD "") ++ (cp.text.getD "")) }
    { lastContent with parts := some ((lp2 :: lrest) ++ crest) }
  | _, _ => lastContent

/-- Translation of `recordHistory` (lines 864-948).  `Role` being total makes
the source's `content.role !== undefined` guard on the model output hold
definitionally (history roles are validated; see `Role`). -/
def recordHistory (hist : List Content) (userInput : Content)
    (modelOutput : List Content)
    (automaticFunctionCallingHistory : Option (List Content)) : List Content :=
  let nonThoughtModelOutput := modelOutput.filter fun c => !(isThoughtContent (some c))
  let outputContents : List Content :=
    if nonThoughtModelOutput.length ≠ 0 then nonThoughtModelOutput
    else if nonThoughtModelOutput.length = 0 && modelOutput.length ≠ 0 then
      -- the model returned only thoughts: no empty model turn is appended
      []
    else if !(isFunctionResponse userInput) then
      [{ role := Role.model, parts := some [] }]
    else []
  let hist1 :=
    match automaticFunctionCallingHistory with
    | some afc =>
      if afc.length ≠ 0 then hist ++ extractCuratedHistory afc
      else hist ++ [userInput]
    | none => hist ++ [userInput]
  let consolidatedOutputContents := outputContents.foldl (fun acc content =>
    if isThoughtContent (some content) then acc
    else
      match acc.getLast? with
      | some lastContent =>
        if isTextContent (some lastContent) && isTextContent (some content) then
          acc.dropLast ++ [appendTextAndExtras lastContent content]
        else acc ++ [content]
      | none => acc ++ [content]) []
  if consolidatedOutputContents.length ≠ 0 then
    let canMergeWithLastHistory :=
      match automaticFunctionCallingHistory with
      | some afc => afc.length = 0
      | none => true
    match hist1.getLast?, consolidatedOutputContents with
    | some lastHistoryEntry, first :: restConsolidated =>
      if canMergeWithLastHistory && isTextContent (some lastHistoryEntry)
          && isTextContent (some first) then
        (hist1.dropLast ++ [appendTextAndExtras lastHistoryEntry first])
          ++ restConsolidated
      else hist1 ++ consolidatedOutputContents
    | _, _ => hist1 ++ consolidatedOutputContents
  else hist1

/-! ## sendMessage (geminiChat.ts lines 555-645)

The transport (`contentGenerator.generateContent` wrapped in
`retryWithBackoff`; `utils/retry.ts` is not among the provided sources) is the
spec's external collaborator: it is passed as a function yielding either the
final response or the error that escaped the retry policy.  Wall-clock
duration and the generated request UUID are parameters. -/

/-- Modelled from the spec: the fixed, smaller fallback model id
(`config/models.ts` is not among the provided sources). -/
def DEFAULT_GEMINI_FLASH_MODEL : String := "gemini-2.5-flash"

def sendMessage (cfg : ChatConfig) (generationCfg : Option SystemInstruction)
    (st : ChatState) (userContent : Content) (promptId requestId : String)
    (transport : List Content → Except ErrInfo Response) (durationMs : Nat) :
    Except ErrInfo Response × ChatState × List TelemetryEvent :=
  let requestContents := extractCuratedHistory st.history ++ [userContent]
  let requestEvents :=
    logApiRequestEvents generationCfg requestContents cfg.model promptId requestId
  let modelToUse := if cfg.model = "" then DEFAULT_GEMINI_FLASH_MODEL else cfg.model
  let outcome : Except ErrInfo Response :=
    if cfg.quotaErrorOccurred && modelToUse = DEFAULT_GEMINI_FLASH_MODEL then
      Except.error
        { message := "Please submit a new query to continue with the Flash model."
          name := "Error" }
    else transport requestContents
  match outcome with
  | Except.error e =>
    (Except.error e, st, requestEvents ++ logApiErrorEvents cfg durationMs e promptId)
  | Except.ok response =>
    let (st1, respEvents) := logApiResponse cfg st durationMs promptId requestId
      response.usageMetadata (some (ParsedResponse.single response))
    let outputContent := (response.candidates.getD []).head?.bind fun cand => cand.content
    let index := (extractCuratedHistory st.history).length
    let afcList : List Content :=
      match response.automaticFunctionCallingHistory with
      | some full => full.drop index
      | none => []
    let modelOutput := match outputContent with
      | some c => [c]
      | none => []
    let hist2 := recordHistory st1.history userContent modelOutput (some afcList)
    (Except.ok response, { st1 with history := hist2 }, requestEvents ++ respEvents)

/-! ## Stream completion (geminiChat.ts lines 801-862) -/

/-- Translation of `getFinalUsageMetadata` (lines 801-810): reverse-scan the
collected chunks for the last one carrying usage metadata. -/
def getFinalUsageMetadata (chunks : List Response) : Option UsageMetadata :=
  (chunks.reverse.find? fun chunk => chunk.usageMetadata.isSome).bind
    fun chunk => chunk.usageMetadata

/-- The collection loop of `processStreamResponse` (lines 823-837): valid
chunks are collected, and their contents - except thought contents, which are
only yielded to the caller - are gathered as the model output. -/
def processStreamCollect (streamChunks : List Response) :
    List Response × List Content :=
  streamChunks.foldl (fun (acc : List Response × List Content) chunk =>
    if isValidResponse chunk then
      let collected := acc.1 ++ [chunk]
      match (chunk.candidates.getD []).head? with
      | some cand =>
        match cand.content with
        | some content =>
          if isThoughtContent (some content) then (collected, acc.2)
          else (collected, acc.2 ++ [content])
        | none => (collected, acc.2)
      | none => (collected, acc.2)
    else acc) ([], [])

/-- Translation of the error-free tail of `processStreamResponse` (lines
845-861): one `_logApiResponse` call with the reverse-scanned final usage
metadata over the collected chunks, then the history commit. -/
def processStreamFinish (cfg : ChatConfig) (st : ChatState)
    (inputContent : Content) (streamChunks : List Response)
    (durationMs : Nat) (promptId requestId : String) :
    ChatState × List TelemetryEvent :=
  let (chunks, outputContent) := processStreamCollect streamChunks
  let (st1, respEvents) := logApiResponse cfg st durationMs promptId requestId
    (getFinalUsageMetadata chunks) (some (ParsedResponse.chunkList chunks))
  let hist2 := recordHistory st1.history inputContent outputContent none
  ({ st1 with history := hist2 }, respEvents)

/-! ## UserBehaviorLogger (userBehaviorLogger.ts, rolling version)

File contents are abstracted to their byte sizes (the only observable the
rotation logic reads: `fs.statSync(...).size`); a write is additionally
reported as the pair of target path and appended byte count so theorems can
state where a line landed.  `safeJsonStringify` plus the ISO timestamp
rendering are embedded as a concrete deterministic rendering whose exact
syntax no claim depends on. -/

/-- Configuration and once-per-construction values of the logger: telemetry
switch and session id from `Config`, the construction date used in file names,
and the two identity hashes computed in the constructor. -/
structure LoggerConfig where
  telemetryEnabled : Bool
  sessionId : String
  dateStr : String
  studentIdHash : String
  machineIdHash : String
deriving DecidableEq, Repr

/-- The log directory, keyed by file path, each file abstracted to its size. -/
structure FileSystem where
  files : List (String × Nat)
deriving DecidableEq, Repr

def FileSystem.lookup (fs : FileSystem) (path : String) : Option Nat :=
  (fs.files.find? fun kv => kv.1 == path).map fun kv => kv.2

/-- `fs.appendFileSync`: append to an existing file or create it. -/
def FileSystem.append (fs : FileSystem) (path : String) (len : Nat) : FileSystem :=
  match fs.lookup path with
  | some _ =>
    { files := fs.files.map fun kv => if kv.1 == path then (kv.1, kv.2 + len) else kv }
  | none => { files := fs.files ++ [(path, len)] }

structure LoggerState where
  currentRollNumber : Nat
  currentLogFilePath : String
  fs : FileSystem
deriving DecidableEq, Repr

/-- `maxFileSize` (userBehaviorLogger.ts line 243): 10 MB. -/
def maxFileSize : Nat := 10 * 1024 * 1024

/-- Translation of `generateLogFilePath` (lines 284-293), parameterized by the
roll number it reads from `this.currentRollNumber`. -/
def generateLogFilePath (cfg : LoggerConfig) (rollNumber : Nat) : String :=
  let dateStr := cfg.dateStr
  let sessionId := (cfg.sessionId.toList.take 8).asString
  let baseFileName := dateStr ++ "-" ++ sessionId
  let rollSuffix := if rollNumber > 0 then "-" ++ toString rollNumber else ""
  "logs/" ++ baseFileName ++ rollSuffix ++ ".jsonl"

/-- Translation of `checkAndRollFile` (lines 295-305): if the active file
exists and its size plus the candidate line's byte length strictly exceeds
`maxFileSize`, increment the roll number and switch the active path. -/
def checkAndRollFile (cfg : LoggerConfig) (st : LoggerState)
    (logLineBytes : Nat) : LoggerState :=
  match st.fs.lookup st.currentLogFilePath with
  | some size =>
    let projectedSize := size + logLineBytes
    if projectedSize > maxFileSize then
      let newRoll := st.currentRollNumber + 1
      { st with
        currentRollNumber := newRoll
        currentLogFilePath := generateLogFilePath cfg newRoll }
    else st
  | none => st

/-- A `UserBehaviorEvent` restricted to the fields the embedded rendering
serializes; the remaining optional fields would only lengthen the line. -/
structure BehaviorEvent where
  eventType : String
  timestamp : Nat
  model : Option String := none
  promptId : Option String := none
  requestId : Option String := none
  content : Option String := none
  inputTokenCount : Option Nat := none
  outputTokenCount : Option Nat := none
  durationMs : Option Nat := none
deriving DecidableEq, Repr

def renderStrField (key : String) (v : Option String) : String :=
  match v with
  | some s => ",\"" ++ key ++ "\":\"" ++ s ++ "\""
  | none => ""

def renderNatField (key : String) (v : Option Nat) : String :=
  match v with
  | some n => ",\"" ++ key ++ "\":" ++ toString n
  | none => ""

/-- The serialized log entry: the event spread together with the session id,
the identity hashes and the (decimal-rendered) timestamp, as built in
`logEvent` (lines 313-321). -/
def renderLogEntry (cfg : LoggerConfig) (ev : BehaviorEvent) : String :=
  "\x7b\"eventType\":\"" ++ ev.eventType ++ "\""
    ++ renderStrField "model" ev.model
    ++ renderStrField "promptId" ev.promptId
    ++ renderStrField "requestId" ev.requestId
    ++ renderStrField "content" ev.content
    ++ renderNatField "inputTokenCount" ev.inputTokenCount
    ++ renderNatField "outputTokenCount" ev.outputTokenCount
    ++ renderNatField "durationMs" ev.durationMs
    ++ renderStrField "sessionId" (some cfg.sessionId)
    ++ renderStrField "studentIdHash" (some cfg.studentIdHash)
    ++ renderStrField "machineIdHash" (some cfg.machineIdHash)
    ++ renderNatField "timestamp" (some ev.timestamp)
    ++ "\x7d"

/-- Translation of `logEvent` (lines 307-331): bail out when telemetry is
disabled, otherwise serialize, roll if needed, and append to the (possibly
new) active file.  The write is also returned as `(path, bytes)`; `none` means
no bytes were written anywhere. -/
def logEvent (cfg : LoggerConfig) (st : LoggerState) (ev : BehaviorEvent) :
    LoggerState × Option (String × Nat) :=
  if !cfg.telemetryEnabled then (st, none)
  else
    let logLine := renderLogEntry cfg ev ++ "\n"
    let lineBytes := logLine.utf8ByteSize
    let st1 := checkAndRollFile cfg st lineBytes
    ({ st1 with fs := st1.fs.append st1.currentLogFilePath lineBytes },
      some (st1.currentLogFilePath, lineBytes))

/-! ## Exchange serialization (sendMessage concurrency, geminiChat.ts lines 555-645)

JavaScript async semantics are embedded as a deterministic cooperative
scheduler: a task (one `sendMessage` invocation) is a program counter; `await`
of an already-resolved promise enqueues the continuation on the microtask
queue; `await` of the transport parks the task until the scheduler, finding
the microtask queue empty, completes the oldest in-flight transport call
(transports complete in start order, the ordering most favorable to the
serialization claim).

Program counters of the `sendMessage` body:
  0 - `await this.sendPromise` (line 559);
  1 - sync work through `_logApiRequest`, then `await` its (already resolved)
      promise (line 563): the request event is emitted here;
  2 - `retryWithBackoff(apiCall)` starts the transport call and suspends on it
      (line 593);
  3 - transport resolved; `await this._logApiResponse(...)` (line 606): the
      response event is emitted, continuation enqueued;
  4 - `this.sendPromise = (async () => ... recordHistory ...)()` (lines
      614-633): the commit IIFE runs synchronously (it contains no await), the
      new - already resolved - promise is assigned, then
      `await this.sendPromise.catch(...)` suspends once;
  5 - return.

The key source fact encoded here: `this.sendPromise` is reassigned only at
pc 4, after the transport await, so during pc 0 of a second call the field
still holds the initial resolved promise. -/

inductive SchedEv
  | awaitSendPromise (task : Nat)
  | requestLogged (task : Nat)
  | transportStart (task : Nat)
  | transportEnd (task : Nat)
  | responseLogged (task : Nat)
  | commitHistory (task : Nat)
  | taskDone (task : Nat)
deriving DecidableEq, Repr

structure Sched where
  microQ : List (Nat × Nat)
  pending : List Nat
  sendPromiseResolved : Bool
  spWaiters : List (Nat × Nat)
  trace : List SchedEv
deriving DecidableEq, Repr

def runStep (task pc : Nat) (s : Sched) : Sched :=
  match pc with
  | 0 =>
    if s.sendPromiseResolved then
      { s with trace := s.trace ++ [SchedEv.awaitSendPromise task]
               microQ := s.microQ ++ [(task, 1)] }
    else
      { s with trace := s.trace ++ [SchedEv.awaitSendPromise task]
               spWaiters := s.spWaiters ++ [(task, 1)] }
  | 1 =>
    { s with trace := s.trace ++ [SchedEv.requestLogged task]
             microQ := s.microQ ++ [(task, 2)] }
  | 2 =>
    { s with trace := s.trace ++ [SchedEv.transportStart task]
             pending := s.pending ++ [task] }
  | 3 =>
    { s with trace := s.trace ++ [SchedEv.responseLogged task]
             microQ := s.microQ ++ [(task, 4)] }
  | 4 =>
    { s with trace := s.trace ++ [SchedEv.commitHistory task]
             sendPromiseResolved := true
             microQ := s.microQ ++ [(task, 5)] }
  | _ =>
    { s with trace := s.trace ++ [SchedEv.taskDone task] }

/-- The event loop: drain the microtask queue; when it is empty, complete the
oldest in-flight transport (scheduling the awaiting continuation); stop when
nothing remains. -/
def schedRun : Nat → Sched → Sched
  | 0, s => s
  | fuel + 1, s =>
    match s.microQ with
    | (task, pc) :: restQ => schedRun fuel (runStep task pc { s with microQ := restQ })
    | [] =>
      match s.pending with
      | task :: restPending =>
        schedRun fuel
          { s with pending := restPending
                   trace := s.trace ++ [SchedEv.transportEnd task]
                   microQ := [(task, 3)] }
      | [] => s

/-- Two back-to-back `sendMessage` invocations on one session: each call runs
its body synchronously up to the first suspension point (`await
this.sendPromise`), then the event loop takes over. -/
def twoSendScenario : Sched :=
  let s0 : Sched :=
    { microQ := [], pending := [], sendPromiseResolved := true
      spWaiters := [], trace := [] }
  let s1 := runStep 1 0 s0
  runStep 2 0 s1

def twoSendTrace : List SchedEv := (schedRun 40 twoSendScenario).trace

/-! ## getHistory and structuredClone (geminiChat.ts lines 769-776)

`getHistory` returns `structuredClone(history)` - a deep copy - so that
callers cannot mutate the session's stored history through the returned
structure.  Object identity is modelled with an explicit heap: content objects
and part objects live in address-indexed stores, the session's history is a
list of content addresses, and `structuredClone` allocates fresh cells for
every nested object.  A mutation through a reference is an update at an
address; updates shadow (most recent binding wins). -/

/-- Heap of JS objects: content cells hold a role and the addresses of their
part objects; part cells hold part values.  `next` is the allocation bound. -/
structure ContentCell where
  role : Role
  partAddrs : List Nat
deriving DecidableEq, Repr

structure Heap where
  contentStore : List (Nat × ContentCell)
  partStore : List (Nat × Part)
  next : Nat
deriving DecidableEq, Repr

def Heap.lookupContent (h : Heap) (a : Nat) : Option ContentCell :=
  (h.contentStore.find? fun kv => kv.1 == a).map fun kv => kv.2

def Heap.lookupPart (h : Heap) (a : Nat) : Option Part :=
  (h.partStore.find? fun kv => kv.1 == a).map fun kv => kv.2

def Heap.readPart (h : Heap) (a : Nat) : Part :=
  (h.lookupPart a).getD {}

def Heap.readCell (h : Heap) (a : Nat) : ContentCell :=
  (h.lookupContent a).getD { role := Role.user, partAddrs := [] }

/-- The value a content reference denotes: its role and the part values its
part references denote. -/
def Heap.readContentVal (h : Heap) (a : Nat) : Role × List Part :=
  let cell := h.readCell a
  (cell.role, cell.partAddrs.map h.readPart)

/-- The values the session observes when it walks its stored history. -/
def readHistoryVals (h : Heap) (hist : List Nat) : List (Role × List Part) :=
  hist.map h.readContentVal

def Heap.allocPart (h : Heap) (p : Part) : Heap × Nat :=
  ({ h with partStore := (h.next, p) :: h.partStore, next := h.next + 1 }, h.next)

def Heap.allocContent (h : Heap) (c : ContentCell) : Heap × Nat :=
  ({ h with contentStore := (h.next, c) :: h.contentStore, next := h.next + 1 }, h.next)

/-- Deep copy of the part objects of one content cell. -/
def clonePartList (h : Heap) : List Nat → Heap × List Nat
  | [] => (h, [])
  | pa :: rest =>
    let p := h.readPart pa
    let (h1, na) := h.allocPart p
    let (h2, nrest) := clonePartList h1 rest
    (h2, na :: nrest)

/-- Deep copy of a list of content references (`structuredClone` on a history
array): every content cell and every part cell is reallocated fresh. -/
def cloneContentList (h : Heap) : List Nat → Heap × List Nat
  | [] => (h, [])
  | a :: rest =>
    let cell := h.readCell a
    let (h1, nparts) := clonePartList h cell.partAddrs
    let (h2, na) := h1.allocContent { role := cell.role, partAddrs := nparts }
    let (h3, nrest) := cloneContentList h2 rest
    (h3, na :: nrest)

/-- Translation of `getHistory` (lines 769-776) at the heap level: the address
list denotes `this.history` (or any list selected from it, e.g. the curated
sublist), and the result is `structuredClone` of it. -/
def getHistoryClone (h : Heap) (hist : List Nat) : Heap × List Nat :=
  cloneContentList h hist

/-- Addresses reachable from a list of content references: the references
themselves and the part addresses stored in their cells. -/
def reachableAddrs (h : Heap) (hist : List Nat) : List Nat :=
  hist ++ hist.flatMap fun a => (h.readCell a).partAddrs

/-- Mutations a caller can perform through references: overwrite a content
cell (role or parts array) or overwrite a part object. -/
inductive HeapMutation
  | setContent (a : Nat) (c : ContentCell)
  | setPart (a : Nat) (p : Part)
deriving DecidableEq, Repr

def HeapMutation.target : HeapMutation → Nat
  | HeapMutation.setContent a _ => a
  | HeapMutation.setPart a _ => a

def applyMutation (h : Heap) : HeapMutation → Heap
  | HeapMutation.setContent a c => { h with contentStore := (a, c) :: h.contentStore }
  | HeapMutation.setPart a p => { h with partStore := (a, p) :: h.partStore }

/-- Well-formedness of a session heap: every stored address, and every part
address inside the referenced cells, lies below the allocation bound. -/
def heapWF (h : Heap) (hist : List Nat) : Bool :=
  hist.all fun a =>
    decide (a < h.next) && (h.readCell a).partAddrs.all fun pa => decide (pa < h.next)

/-! ## Helper lemmas: history curation -/

theorem role_model_of_not_user {c : Content} (h : ¬ c.role = Role.user) :
    c.role = Role.model := by
  cases hr : c.role
  · exact absurd hr h
  · rfl

theorem curateGo_eq_specFold (fuel : Nat) :
    ∀ (l acc : List Content), l.length ≤ fuel →
    curateGo fuel l acc = (specBlocksGo fuel l).foldl specStep acc := by
  induction fuel with
  | zero =>
    intro l acc h
    have hl : l = [] := List.eq_nil_of_length_eq_zero (Nat.le_zero.mp h)
    subst hl
    simp [curateGo, specBlocksGo]
  | succ fuel ih =>
    intro l acc h
    match l with
    | [] => simp [curateGo, specBlocksGo]
    | c :: rest =>
      by_cases hu : c.role = Role.user
      · have h1 : curateGo (fuel+1) (c::rest) acc = curateGo fuel rest (acc ++ [c]) := by
          simp [curateGo, hu]
        have h2 : specBlocksGo (fuel+1) (c::rest) = [c] :: specBlocksGo fuel rest := by
          simp [specBlocksGo, hu]
        have h3 : specStep acc [c] = acc ++ [c] := by simp [specStep, hu]
        rw [h1, h2, List.foldl_cons, h3]
        exact ih rest _ (Nat.le_of_succ_le_succ (by simpa using h))
      · have hm : c.role = Role.model := role_model_of_not_user hu
        have hmb : isModelRole c = true := by simp [isModelRole, hm]
        have hrest1 : List.dropWhile isModelRole (c :: rest)
            = List.dropWhile isModelRole rest := List.dropWhile_cons_of_pos hmb
        have hrun : List.takeWhile isModelRole (c :: rest)
            = c :: List.takeWhile isModelRole rest := List.takeWhile_cons_of_pos hmb
        have hlen : (List.dropWhile isModelRole (c :: rest)).length ≤ fuel := by
          rw [hrest1]
          exact le_trans (List.dropWhile_sublist isModelRole).length_le
            (Nat.le_of_succ_le_succ (by simpa using h))
        have h1 : curateGo (fuel+1) (c::rest) acc =
            (if (List.takeWhile isModelRole (c::rest)).all isValidContent
             then curateGo fuel (List.dropWhile isModelRole (c::rest))
               (acc ++ List.takeWhile isModelRole (c::rest))
             else curateGo fuel (List.dropWhile isModelRole (c::rest)) acc.dropLast) := by
          simp [curateGo, hu]
        have h2 : specBlocksGo (fuel+1) (c::rest) =
            List.takeWhile isModelRole (c::rest)
              :: specBlocksGo fuel (List.dropWhile isModelRole (c::rest)) := by
          simp [specBlocksGo, hu]
        have h3 : specStep acc (List.takeWhile isModelRole (c::rest)) =
            (if (List.takeWhile isModelRole (c::rest)).all isValidContent
             then acc ++ List.takeWhile isModelRole (c::rest)
             else acc.dropLast) := by
          rw [hrun]
          simp [specStep, hm]
        rw [h1, h2, List.foldl_cons, h3]
        by_cases hv : (List.takeWhile isModelRole (c::rest)).all isValidContent
        · rw [if_pos hv, if_pos hv]
          exact ih _ _ hlen
        · rw [if_neg hv, if_neg hv]
          exact ih _ _ hlen

theorem curateGo_all_valid (fuel : Nat) :
    ∀ (l acc : List Content), l.length ≤ fuel →
    (∀ c ∈ l, isModelRole c = true → isValidContent c = true) →
    curateGo fuel l acc = acc ++ l := by
  induction fuel with
  | zero =>
    intro l acc h _
    have hl : l = [] := List.eq_nil_of_length_eq_zero (Nat.le_zero.mp h)
    subst hl
    simp [curateGo]
  | succ fuel ih =>
    intro l acc h hval
    match l with
    | [] => simp [curateGo]
    | c :: rest =>
      by_cases hu : c.role = Role.user
      · have h1 : curateGo (fuel+1) (c::rest) acc = curateGo fuel rest (acc ++ [c]) := by
          simp [curateGo, hu]
        rw [h1, ih rest _ (Nat.le_of_succ_le_succ (by simpa using h))
          (fun x hx => hval x (List.mem_cons_of_mem c hx))]
        simp
      · have hm : c.role = Role.model := role_model_of_not_user hu
        have hmb : isModelRole c = true := by simp [isModelRole, hm]
        have hv : (List.takeWhile isModelRole (c::rest)).all isValidContent = true := by
          rw [List.all_eq_true]
          intro x hx
          exact hval x (List.takeWhile_subset _ hx)
            (by
              have := List.all_takeWhile (p := isModelRole) (l := c :: rest)
              rw [List.all_eq_true] at this
              exact this x hx)
        have h1 : curateGo (fuel+1) (c::rest) acc =
            curateGo fuel (List.dropWhile isModelRole (c::rest))
              (acc ++ List.takeWhile isModelRole (c::rest)) := by
          simp [curateGo, hu, hv]
        have hlen : (List.dropWhile isModelRole (c :: rest)).length ≤ fuel := by
          rw [List.dropWhile_cons_of_pos hmb]
          exact le_trans (List.dropWhile_sublist isModelRole).length_le
            (Nat.le_of_succ_le_succ (by simpa using h))
        rw [h1, ih _ _ hlen
          (fun x hx => hval x (List.dropWhile_subset _ hx))]
        rw [List.append_assoc, List.takeWhile_append_dropWhile]

theorem curateGo_output_valid (fuel : Nat) :
    ∀ (l acc : List Content),
    (∀ c ∈ acc, isModelRole c = true → isValidContent c = true) →
    ∀ c ∈ curateGo fuel l acc, isModelRole c = true → isValidContent c = true := by
  induction fuel with
  | zero =>
    intro l acc hacc
    simpa [curateGo] using hacc
  | succ fuel ih =>
    intro l acc hacc
    match l with
    | [] => simpa [curateGo] using hacc
    | c :: rest =>
      by_cases hu : c.role = Role.user
      · have h1 : curateGo (fuel+1) (c::rest) acc = curateGo fuel rest (acc ++ [c]) := by
          simp [curateGo, hu]
        rw [h1]
        refine ih rest _ ?_
        intro x hx
        rcases List.mem_append.mp hx with hx | hx
        · exact hacc x hx
        · intro hmx
          exfalso
          have : x = c := by simpa using hx
          subst this
          simp [isModelRole, hu] at hmx
      · have hm : c.role = Role.model := role_model_of_not_user hu
        by_cases hv : (List.takeWhile isModelRole (c::rest)).all isValidContent
        · have h1 : curateGo (fuel+1) (c::rest) acc =
              curateGo fuel (List.dropWhile isModelRole (c::rest))
                (acc ++ List.takeWhile isModelRole (c::rest)) := by
            simp [curateGo, hu, hv]
          rw [h1]
          refine ih _ _ ?_
          intro x hx
          rcases List.mem_append.mp hx with hx | hx
          · exact hacc x hx
          · intro _
            rw [List.all_eq_true] at hv
            exact hv x hx
        · have h1 : curateGo (fuel+1) (c::rest) acc =
              curateGo fuel (List.dropWhile isModelRole (c::rest)) acc.dropLast := by
            simp [curateGo, hu, hv]
          rw [h1]
          refine ih _ _ ?_
          intro x hx
          exact hacc x (List.dropLast_subset _ hx)

/-! ## Helper lemmas -/

theorem find?_isSome_bind_eq_head?_filterMap {α β : Type} (f : α → Option β) :
    ∀ l : List α, ((l.find? fun c => (f c).isSome).bind f) = (l.filterMap f).head? := by
  intro l
  induction l with
  | nil => rfl
  | cons c rest ih =>
    by_cases hc : (f c).isSome
    · rw [List.find?_cons_of_pos (p := fun c => (f c).isSome) rest hc]
      rcases Option.isSome_iff_exists.mp hc with ⟨u, hu⟩
      simp [List.filterMap_cons, hu]
    · rw [List.find?_cons_of_neg (p := fun c => (f c).isSome) rest (by simpa using hc)]
      have hnone : f c = none := Option.not_isSome_iff_eq_none.mp (by simpa using hc)
      simp [List.filterMap_cons, hnone, ih]

theorem getFinalUsageMetadata_eq_getLast (chunks : List Response) :
    getFinalUsageMetadata chunks
      = (chunks.filterMap fun c => c.usageMetadata).getLast? := by
  unfold getFinalUsageMetadata
  rw [find?_isSome_bind_eq_head?_filterMap (fun c => c.usageMetadata) chunks.reverse]
  rw [List.filterMap_reverse, List.head?_reverse]

theorem find?_map_sizeUpdate (q p : String) (len : Nat) (hne : p ≠ q) :
    ∀ l : List (String × Nat),
    ((l.map fun kv => if kv.1 == q then (kv.1, kv.2 + len) else kv).find?
        (fun kv => kv.1 == p)).map (fun kv => kv.2)
    = ((l.find? fun kv => kv.1 == p).map fun kv => kv.2) := by
  intro l
  induction l with
  | nil => simp
  | cons kv rest ih =>
    by_cases hkq : kv.1 = q
    · have h1 : (if (kv.1 == q) = true then (kv.1, kv.2 + len) else kv)
          = (kv.1, kv.2 + len) := by simp [hkq]
      have hkp : ¬ kv.1 = p := by
        intro hc
        exact hne (by rw [← hc, hkq])
      simp only [List.map_cons, h1]
      rw [List.find?_cons_of_neg _ (by simp [hkp]), List.find?_cons_of_neg _ (by simp [hkp])]
      exact ih
    · have h1 : (if (kv.1 == q) = true then (kv.1, kv.2 + len) else kv) = kv := by
        simp [hkq]
      simp only [List.map_cons, h1]
      by_cases hkp : kv.1 = p
      · rw [List.find?_cons_of_pos _ (by simp [hkp]), List.find?_cons_of_pos _ (by simp [hkp])]
      · rw [List.find?_cons_of_neg _ (by simp [hkp]), List.find?_cons_of_neg _ (by simp [hkp])]
        exact ih

theorem lookup_append_ne (fs : FileSystem) (p q : String) (len : Nat) (hne : p ≠ q) :
    (fs.append q len).lookup p = fs.lookup p := by
  unfold FileSystem.append
  cases hq : fs.lookup q with
  | some sz =>
    simp only
    unfold FileSystem.lookup
    exact find?_map_sizeUpdate q p len hne fs.files
  | none =>
    simp only
    unfold FileSystem.lookup
    rw [List.find?_append]
    cases hp : fs.files.find? (fun kv => kv.1 == p) with
    | some kv => simp
    | none =>
      simp only [Option.none_or]
      rw [List.find?_cons_of_neg _ (by simp [Ne.symm hne]), List.find?_nil]

theorem dedupFirstGo_nodup (l : List String) :
    ∀ seen : List String,
    (dedupFirstGo l seen).Nodup ∧ ∀ x ∈ dedupFirstGo l seen, ¬ seen.contains x = true := by
  induction l with
  | nil =>
    intro seen
    simp [dedupFirstGo]
  | cons x xs ih =>
    intro seen
    by_cases hx : seen.contains x = true
    · simp only [dedupFirstGo, if_pos hx]
      exact ih seen
    · simp only [dedupFirstGo, if_neg hx]
      constructor
      · refine List.Nodup.cons ?_ (ih (x :: seen)).1
        intro hmem
        have := (ih (x :: seen)).2 x hmem
        simp at this
      · intro y hy
        rcases List.mem_cons.mp hy with rfl | hy
        · exact hx
        · intro hc
          refine (ih (x :: seen)).2 y hy ?_
          have hm : y ∈ seen := by simpa using hc
          simp [List.contains_cons, hm]

theorem extractToolsCalled_nodup (cs : List Content) :
    (extractToolsCalled cs).Nodup := by
  unfold extractToolsCalled dedupFirst
  exact (dedupFirstGo_nodup _ []).1

theorem lookupPart_allocPart_ne (h : Heap) (p : Part) (a : Nat) (hne : a ≠ h.next) :
    (h.allocPart p).1.lookupPart a = h.lookupPart a := by
  unfold Heap.allocPart Heap.lookupPart
  simp only
  rw [List.find?_cons_of_neg _ (by simp [Ne.symm hne])]

theorem lookupPart_allocPart_self (h : Heap) (p : Part) :
    (h.allocPart p).1.lookupPart h.next = some p := by
  unfold Heap.allocPart Heap.lookupPart
  simp only
  rw [List.find?_cons_of_pos _ (by simp)]
  rfl

theorem lookupContent_allocPart (h : Heap) (p : Part) (a : Nat) :
    (h.allocPart p).1.lookupContent a = h.lookupContent a := rfl

theorem lookupPart_allocContent (h : Heap) (c : ContentCell) (a : Nat) :
    (h.allocContent c).1.lookupPart a = h.lookupPart a := rfl

theorem lookupContent_allocContent_ne (h : Heap) (c : ContentCell) (a : Nat)
    (hne : a ≠ h.next) :
    (h.allocContent c).1.lookupContent a = h.lookupContent a := by
  unfold Heap.allocContent Heap.lookupContent
  simp only
  rw [List.find?_cons_of_neg _ (by simp [Ne.symm hne])]

theorem lookupContent_allocContent_self (h : Heap) (c : ContentCell) :
    (h.allocContent c).1.lookupContent h.next = some c := by
  unfold Heap.allocContent Heap.lookupContent
  simp only
  rw [List.find?_cons_of_pos _ (by simp)]
  rfl

theorem allocPart_next (h : Heap) (p : Part) : (h.allocPart p).1.next = h.next + 1 := rfl

theorem allocPart_addr (h : Heap) (p : Part) : (h.allocPart p).2 = h.next := rfl

theorem allocContent_next (h : Heap) (c : ContentCell) :
    (h.allocContent c).1.next = h.next + 1 := rfl

theorem allocContent_addr (h : Heap) (c : ContentCell) : (h.allocContent c).2 = h.next := rfl

theorem clonePartList_next_le (l : List Nat) :
    ∀ h : Heap, h.next ≤ (clonePartList h l).1.next := by
  induction l with
  | nil => intro h; exact le_rfl
  | cons pa rest ih =>
    intro h
    simp only [clonePartList]
    calc h.next ≤ h.next + 1 := Nat.le_succ _
      _ = (h.allocPart (h.readPart pa)).1.next := (allocPart_next h _).symm
      _ ≤ _ := ih _

theorem clonePartList_preserves (l : List Nat) :
    ∀ (h : Heap) (a : Nat), a < h.next →
    (clonePartList h l).1.lookupPart a = h.lookupPart a
    ∧ (clonePartList h l).1.lookupContent a = h.lookupContent a := by
  induction l with
  | nil => intro h a _; exact ⟨rfl, rfl⟩
  | cons pa rest ih =>
    intro h a ha
    simp only [clonePartList]
    have ha1 : a < (h.allocPart (h.readPart pa)).1.next := by
      rw [allocPart_next]
      exact lt_trans ha (Nat.lt_succ_self _)
    constructor
    · rw [(ih _ a ha1).1, lookupPart_allocPart_ne h _ a (Nat.ne_of_lt ha)]
    · rw [(ih _ a ha1).2, lookupContent_allocPart]

theorem clonePartList_fresh (l : List Nat) :
    ∀ (h : Heap), ∀ na ∈ (clonePartList h l).2,
    h.next ≤ na ∧ na < (clonePartList h l).1.next := by
  induction l with
  | nil => intro h na hna; simp [clonePartList] at hna
  | cons pa rest ih =>
    intro h na hna
    simp only [clonePartList] at hna ⊢
    rcases List.mem_cons.mp hna with heq | hna
    · rw [allocPart_addr] at heq
      refine ⟨le_of_eq heq.symm, ?_⟩
      rw [heq]
      calc h.next < h.next + 1 := Nat.lt_succ_self _
        _ = (h.allocPart (h.readPart pa)).1.next := (allocPart_next h _).symm
        _ ≤ _ := clonePartList_next_le rest _
    · have hr := ih _ na hna
      refine ⟨?_, hr.2⟩
      calc h.next ≤ h.next + 1 := Nat.le_succ _
        _ = (h.allocPart (h.readPart pa)).1.next := (allocPart_next h _).symm
        _ ≤ na := hr.1

theorem clonePartList_vals (l : List Nat) :
    ∀ (h : Heap), (∀ pa ∈ l, pa < h.next) →
    (clonePartList h l).2.map (clonePartList h l).1.readPart = l.map h.readPart := by
  induction l with
  | nil => intro h _; rfl
  | cons pa rest ih =>
    intro h hb
    have hb0 : pa < h.next := hb pa (List.mem_cons_self pa rest)
    have hbr : ∀ x ∈ rest, x < (h.allocPart (h.readPart pa)).1.next := by
      intro x hx
      rw [allocPart_next]
      exact lt_trans (hb x (List.mem_cons_of_mem pa hx)) (Nat.lt_succ_self _)
    simp only [clonePartList, List.map_cons]
    have hhead : (clonePartList (h.allocPart (h.readPart pa)).1 rest).1.readPart
        (h.allocPart (h.readPart pa)).2 = h.readPart pa := by
      rw [allocPart_addr]
      unfold Heap.readPart
      rw [(clonePartList_preserves rest _ h.next (by rw [allocPart_next]; exact Nat.lt_succ_self _)).1]
      rw [lookupPart_allocPart_self]
      rfl
    have htail : (clonePartList (h.allocPart (h.readPart pa)).1 rest).2.map
        (clonePartList (h.allocPart (h.readPart pa)).1 rest).1.readPart
        = rest.map h.readPart := by
      rw [ih _ hbr]
      refine List.map_congr_left ?_
      intro x hx
      unfold Heap.readPart
      rw [lookupPart_allocPart_ne h _ x
        (Nat.ne_of_lt (hb x (List.mem_cons_of_mem pa hx)))]
    rw [hhead, htail]

theorem readContentVal_eq_of_preserved {h h' : Heap} (a : Nat)
    (hc : h'.lookupContent a = h.lookupContent a)
    (hp : ∀ pa ∈ (h.readCell a).partAddrs, h'.lookupPart pa = h.lookupPart pa) :
    h'.readContentVal a = h.readContentVal a := by
  unfold Heap.readContentVal
  have hcell : h'.readCell a = h.readCell a := by
    unfold Heap.readCell
    rw [hc]
  rw [hcell]
  refine congrArg _ ?_
  refine List.map_congr_left ?_
  intro pa hpa
  unfold Heap.readPart
  rw [hp pa hpa]

theorem cloneContentList_next_le (l : List Nat) :
    ∀ h : Heap, h.next ≤ (cloneContentList h l).1.next := by
  induction l with
  | nil => intro h; exact le_rfl
  | cons a rest ih =>
    intro h
    simp only [cloneContentList]
    calc h.next
        ≤ (clonePartList h (h.readCell a).partAddrs).1.next :=
          clonePartList_next_le _ h
      _ ≤ (clonePartList h (h.readCell a).partAddrs).1.next + 1 := Nat.le_succ _
      _ = ((clonePartList h (h.readCell a).partAddrs).1.allocContent
            { role := (h.readCell a).role
              partAddrs := (clonePartList h (h.readCell a).partAddrs).2 }).1.next :=
          (allocContent_next _ _).symm
      _ ≤ _ := ih _

theorem cloneContentList_preserves (l : List Nat) :
    ∀ (h : Heap) (a : Nat), a < h.next →
    (cloneContentList h l).1.lookupPart a = h.lookupPart a
    ∧ (cloneContentList h l).1.lookupContent a = h.lookupContent a := by
  induction l with
  | nil => intro h a _; exact ⟨rfl, rfl⟩
  | cons a0 rest ih =>
    intro h a ha
    simp only [cloneContentList]
    have h1le : a < (clonePartList h (h.readCell a0).partAddrs).1.next :=
      lt_of_lt_of_le ha (clonePartList_next_le _ h)
    have h2le : a < ((clonePartList h (h.readCell a0).partAddrs).1.allocContent
        { role := (h.readCell a0).role
          partAddrs := (clonePartList h (h.readCell a0).partAddrs).2 }).1.next := by
      rw [allocContent_next]
      exact lt_trans h1le (Nat.lt_succ_self _)
    constructor
    · rw [(ih _ a h2le).1, lookupPart_allocContent,
        (clonePartList_preserves _ h a ha).1]
    · rw [(ih _ a h2le).2,
        lookupContent_allocContent_ne _ _ a (Nat.ne_of_lt h1le),
        (clonePartList_preserves _ h a ha).2]

theorem cloneContentList_fresh (l : List Nat) :
    ∀ (h : Heap), ∀ na ∈ (cloneContentList h l).2,
    h.next ≤ na ∧ na < (cloneContentList h l).1.next := by
  induction l with
  | nil => intro h na hna; simp [cloneContentList] at hna
  | cons a0 rest ih =>
    intro h na hna
    simp only [cloneContentList] at hna ⊢
    rcases List.mem_cons.mp hna with heq | hna
    · rw [allocContent_addr] at heq
      refine ⟨?_, ?_⟩
      · rw [heq]
        exact clonePartList_next_le _ h
      · rw [heq]
        calc (clonePartList h (h.readCell a0).partAddrs).1.next
            < (clonePartList h (h.readCell a0).partAddrs).1.next + 1 := Nat.lt_succ_self _
          _ = ((clonePartList h (h.readCell a0).partAddrs).1.allocContent
                { role := (h.readCell a0).role
                  partAddrs := (clonePartList h (h.readCell a0).partAddrs).2 }).1.next :=
              (allocContent_next _ _).symm
          _ ≤ _ := cloneContentList_next_le rest _
    · have hr := ih _ na hna
      refine ⟨?_, hr.2⟩
      calc h.next
          ≤ (clonePartList h (h.readCell a0).partAddrs).1.next := clonePartList_next_le _ h
        _ ≤ (clonePartList h (h.readCell a0).partAddrs).1.next + 1 := Nat.le_succ _
        _ = ((clonePartList h (h.readCell a0).partAddrs).1.allocContent
              { role := (h.readCell a0).role
                partAddrs := (clonePartList h (h.readCell a0).partAddrs).2 }).1.next :=
            (allocContent_next _ _).symm
        _ ≤ na := hr.1

theorem cloneContentList_parts_fresh (l : List Nat) :
    ∀ (h : Heap), ∀ na ∈ (cloneContentList h l).2,
    ∀ pa ∈ ((cloneContentList h l).1.readCell na).partAddrs,
    h.next ≤ pa ∧ pa < (cloneContentList h l).1.next := by
  induction l with
  | nil => intro h na hna; simp [cloneContentList] at hna
  | cons a0 rest ih =>
    intro h na hna pa hpa
    simp only [cloneContentList] at hna hpa ⊢
    set pr := clonePartList h (h.readCell a0).partAddrs with hpr
    set h2pair := pr.1.allocContent
      { role := (h.readCell a0).role, partAddrs := pr.2 } with hh2
    rcases List.mem_cons.mp hna with heq | hna
    · rw [allocContent_addr] at heq
      have hnalt : na < h2pair.1.next := by
        rw [heq, hh2, allocContent_next]
        exact Nat.lt_succ_self _
      have hcell : (cloneContentList h2pair.1 rest).1.readCell na
          = { role := (h.readCell a0).role, partAddrs := pr.2 } := by
        unfold Heap.readCell
        rw [(cloneContentList_preserves rest _ na hnalt).2]
        rw [heq, hh2, lookupContent_allocContent_self]
        rfl
      rw [hcell] at hpa
      have hfr := clonePartList_fresh (h.readCell a0).partAddrs h pa (by rw [← hpr]; exact hpa)
      refine ⟨hfr.1, ?_⟩
      calc pa < pr.1.next := hfr.2
        _ ≤ h2pair.1.next := by rw [hh2, allocContent_next]; exact Nat.le_succ _
        _ ≤ _ := cloneContentList_next_le rest _
    · have hr := ih _ na hna pa hpa
      refine ⟨?_, hr.2⟩
      calc h.next ≤ pr.1.next := clonePartList_next_le _ h
        _ ≤ h2pair.1.next := by rw [hh2, allocContent_next]; exact Nat.le_succ _
        _ ≤ pa := hr.1

theorem cloneContentList_vals (l : List Nat) :
    ∀ (h : Heap),
    (∀ a ∈ l, a < h.next ∧ ∀ pa ∈ (h.readCell a).partAddrs, pa < h.next) →
    (cloneContentList h l).2.map (cloneContentList h l).1.readContentVal
      = l.map h.readContentVal := by
  induction l with
  | nil => intro h _; rfl
  | cons a0 rest ih =>
    intro h hb
    have hb0 := hb a0 (List.mem_cons_self a0 rest)
    simp only [cloneContentList, List.map_cons]
    set pr := clonePartList h (h.readCell a0).partAddrs with hpr
    set h2pair := pr.1.allocContent
      { role := (h.readCell a0).role, partAddrs := pr.2 } with hh2
    have h1nextle : h.next ≤ pr.1.next := by
      rw [hpr]; exact clonePartList_next_le _ h
    have h2next : h2pair.1.next = pr.1.next + 1 := by rw [hh2, allocContent_next]
    have hhead : (cloneContentList h2pair.1 rest).1.readContentVal h2pair.2
        = h.readContentVal a0 := by
      have haddr : h2pair.2 = pr.1.next := by rw [hh2, allocContent_addr]
      have hnalt : h2pair.2 < h2pair.1.next := by
        rw [haddr, h2next]; exact Nat.lt_succ_self _
      have hcell : (cloneContentList h2pair.1 rest).1.readCell h2pair.2
          = { role := (h.readCell a0).role, partAddrs := pr.2 } := by
        unfold Heap.readCell
        rw [(cloneContentList_preserves rest _ _ hnalt).2]
        rw [haddr, hh2, lookupContent_allocContent_self]
        rfl
      unfold Heap.readContentVal
      rw [hcell]
      refine congrArg (Prod.mk (h.readCell a0).role) ?_
      have hparts : pr.2.map (cloneContentList h2pair.1 rest).1.readPart
          = pr.2.map pr.1.readPart := by
        refine List.map_congr_left ?_
        intro pa hpa
        have hfr := clonePartList_fresh (h.readCell a0).partAddrs h pa (by rw [← hpr]; exact hpa)
        have hpalt : pa < h2pair.1.next := by
          rw [h2next]; exact lt_trans hfr.2 (Nat.lt_succ_self _)
        unfold Heap.readPart
        rw [(cloneContentList_preserves rest _ pa hpalt).1, hh2, lookupPart_allocContent]
      rw [hparts, hpr]
      exact clonePartList_vals _ h hb0.2
    have htail : (cloneContentList h2pair.1 rest).2.map
        (cloneContentList h2pair.1 rest).1.readContentVal
        = rest.map h.readContentVal := by
      have hbr : ∀ a ∈ rest, a < h2pair.1.next
          ∧ ∀ pa ∈ (h2pair.1.readCell a).partAddrs, pa < h2pair.1.next := by
        intro a ha
        have hba := hb a (List.mem_cons_of_mem a0 ha)
        have halt : a < h2pair.1.next := by
          rw [h2next]
          exact lt_trans (lt_of_lt_of_le hba.1 h1nextle) (Nat.lt_succ_self _)
        have hcells : h2pair.1.readCell a = h.readCell a := by
          unfold Heap.readCell
          rw [hh2, lookupContent_allocContent_ne _ _ a
            (Nat.ne_of_lt (lt_of_lt_of_le hba.1 h1nextle)),
            (clonePartList_preserves _ h a hba.1).2]
        refine ⟨halt, ?_⟩
        rw [hcells]
        intro pa hpa
        rw [h2next]
        exact lt_trans (lt_of_lt_of_le (hba.2 pa hpa) h1nextle) (Nat.lt_succ_self _)
      rw [ih _ hbr]
      refine List.map_congr_left ?_
      intro a ha
      have hba := hb a (List.mem_cons_of_mem a0 ha)
      refine readContentVal_eq_of_preserved a ?_ ?_
      · rw [hh2, lookupContent_allocContent_ne _ _ a
          (Nat.ne_of_lt (lt_of_lt_of_le hba.1 h1nextle)),
          (clonePartList_preserves _ h a hba.1).2]
      · intro pa hpa
        rw [hh2, lookupPart_allocContent, (clonePartList_preserves _ h pa (hba.2 pa hpa)).1]
    rw [hhead, htail]

theorem lookupContent_applyMutation_ne (h : Heap) (m : HeapMutation) (a : Nat)
    (hne : a ≠ m.target) :
    (applyMutation h m).lookupContent a = h.lookupContent a := by
  cases m with
  | setContent b c =>
    simp only [HeapMutation.target] at hne
    unfold applyMutation Heap.lookupContent
    simp only
    rw [List.find?_cons_of_neg _ (by simp [Ne.symm hne])]
  | setPart b p => rfl

theorem lookupPart_applyMutation_ne (h : Heap) (m : HeapMutation) (a : Nat)
    (hne : a ≠ m.target) :
    (applyMutation h m).lookupPart a = h.lookupPart a := by
  cases m with
  | setContent b c => rfl
  | setPart b p =>
    simp only [HeapMutation.target] at hne
    unfold applyMutation Heap.lookupPart
    simp only
    rw [List.find?_cons_of_neg _ (by simp [Ne.symm hne])]

theorem heapWF_bounds {h : Heap} {hist : List Nat} (hwf : heapWF h hist = true) :
    ∀ a ∈ hist, a < h.next ∧ ∀ pa ∈ (h.readCell a).partAddrs, pa < h.next := by
  intro a ha
  unfold heapWF at hwf
  rw [List.all_eq_true] at hwf
  have := hwf a ha
  rw [Bool.and_eq_true] at this
  refine ⟨by simpa using this.1, ?_⟩
  intro pa hpa
  have h2 := this.2
  rw [List.all_eq_true] at h2
  simpa using h2 pa hpa

/-! ## Claim theorems -/

/-- C1: the claim states at most one api_response event is ever emitted per
correlation id because the id is recorded in the dedup window before the first
write.  The duplicate-prevention block in the source `_logApiResponse` is
commented out ("DEBUG: Temporarily disable duplicate prevention"), while the
`loggedResponses` field is declared with the comment "Track logged responses
to prevent duplicates"; evaluating the embedded code on the same requestId
presented twice (usage metadata present both times) yields two api_response
events, contradicting the claim - the code defeats its own stated intent. -/
theorem c1_duplicate_response_emission :
    ((((logApiResponse { model := "qwen3-coder-plus" } { history := [] } 100 "p1" "r1"
          (some { inputTokenCount := some 10, outputTokenCount := some 5 }) none).2)
      ++ ((logApiResponse { model := "qwen3-coder-plus" }
          (logApiResponse { model := "qwen3-coder-plus" } { history := [] } 100 "p1" "r1"
            (some { inputTokenCount := some 10, outputTokenCount := some 5 }) none).1
          100 "p1" "r1"
          (some { inputTokenCount := some 10, outputTokenCount := some 5 }) none).2)).filter
        TelemetryEvent.isApiResponse).length = 2 := by decide

/-- C2: the claim states that for two calls to send on one session the second
transport invocation begins only after the first exchange finished its commit
phase.  In the source, `this.sendPromise` is reassigned only after the
transport await (line 614), so the second call awaits the still-resolved
initial promise and proceeds.  The deterministic JS microtask schedule of two
back-to-back sendMessage calls puts the second transport start before both the
first transport completion and the first commit, refuting the claim. -/
theorem c2_transport_overlap_before_commit :
    SchedEv.transportStart 2 ∈ twoSendTrace
    ∧ SchedEv.commitHistory 1 ∈ twoSendTrace
    ∧ twoSendTrace.indexOf (SchedEv.transportStart 2)
        < twoSendTrace.indexOf (SchedEv.commitHistory 1)
    ∧ twoSendTrace.indexOf (SchedEv.transportStart 2)
        < twoSendTrace.indexOf (SchedEv.transportEnd 1) := by decide

set_option maxRecDepth 10000 in
/-- C3 counterexample: the claim says a roll happens when existing size plus
candidate line length meets or exceeds the cap.  At a projected size exactly
equal to `maxFileSize`, the source condition `projectedSize > this.maxFileSize`
is false: no roll happens, the roll number stays 0 and the line lands in the
old file. -/
theorem c3_cap_boundary_counterexample :
    let cfg : LoggerConfig :=
      { telemetryEnabled := true, sessionId := "abcdef1234", dateStr := "2025-08-11",
        studentIdHash := "aaaabbbbccccdddd", machineIdHash := "eeeeffff00001111" }
    let ev : BehaviorEvent := { eventType := "api_response", timestamp := 1723400000 }
    let lineBytes := (renderLogEntry cfg ev ++ "\n").utf8ByteSize
    let path0 := generateLogFilePath cfg 0
    let st : LoggerState :=
      { currentRollNumber := 0, currentLogFilePath := path0,
        fs := { files := [(path0, maxFileSize - lineBytes)] } }
    ((maxFileSize - lineBytes) + lineBytes = maxFileSize
     ∧ (logEvent cfg st ev).1.currentRollNumber = 0
     ∧ (logEvent cfg st ev).1.currentLogFilePath = path0
     ∧ (logEvent cfg st ev).2 = some (path0, lineBytes)) := by decide

/-- C3 (amended): when the active log file exists and its size plus the
candidate line byte length strictly exceeds the fixed cap, the roll number is
incremented and the active path switched before the write, the candidate line
lands in the new file, and the old file receives no further writes (its
recorded size is unchanged).  The hypothesis that the next roll path differs
from the active path is a file-naming fact discharged by evaluation at any
concrete state. -/
theorem c3_roll_on_strict_overflow (cfg : LoggerConfig) (st : LoggerState) (ev : BehaviorEvent)
    (size : Nat)
    (henabled : cfg.telemetryEnabled = true)
    (hsize : st.fs.lookup st.currentLogFilePath = some size)
    (hover : size + (renderLogEntry cfg ev ++ "\n").utf8ByteSize > maxFileSize)
    (hfresh : generateLogFilePath cfg (st.currentRollNumber + 1) ≠ st.currentLogFilePath) :
    (logEvent cfg st ev).1.currentRollNumber = st.currentRollNumber + 1
    ∧ (logEvent cfg st ev).1.currentLogFilePath
        = generateLogFilePath cfg (st.currentRollNumber + 1)
    ∧ (logEvent cfg st ev).2
        = some (generateLogFilePath cfg (st.currentRollNumber + 1),
                (renderLogEntry cfg ev ++ "\n").utf8ByteSize)
    ∧ (logEvent cfg st ev).1.fs.lookup st.currentLogFilePath = some size := by
  have hroll : checkAndRollFile cfg st ((renderLogEntry cfg ev ++ "\n").utf8ByteSize)
      = { st with currentRollNumber := st.currentRollNumber + 1
                  currentLogFilePath := generateLogFilePath cfg (st.currentRollNumber + 1) } := by
    unfold checkAndRollFile
    rw [hsize]
    simp only [if_pos hover]
  simp only [logEvent, henabled, Bool.not_true, Bool.false_eq_true, if_false, hroll]
  refine ⟨trivial, trivial, trivial, ?_⟩
  have := lookup_append_ne st.fs st.currentLogFilePath
    (generateLogFilePath cfg (st.currentRollNumber + 1))
    ((renderLogEntry cfg ev ++ "\n").utf8ByteSize) (Ne.symm hfresh)
  simpa [this] using hsize

set_option maxRecDepth 10000 in
/-- C3 witness: a concrete full file (size exactly the cap) rolls on the next
write and keeps its old size. -/
theorem c3_roll_on_strict_overflow_witness :
    (logEvent
        { telemetryEnabled := true, sessionId := "abcdef1234", dateStr := "2025-08-11",
          studentIdHash := "aaaabbbbccccdddd", machineIdHash := "eeeeffff00001111" }
        { currentRollNumber := 0,
          currentLogFilePath := "logs/2025-08-11-abcdef12.jsonl",
          fs := { files := [("logs/2025-08-11-abcdef12.jsonl", maxFileSize)] } }
        { eventType := "api_response", timestamp := 1723400000 }).1.currentRollNumber = 0 + 1
    ∧ (logEvent
        { telemetryEnabled := true, sessionId := "abcdef1234", dateStr := "2025-08-11",
          studentIdHash := "aaaabbbbccccdddd", machineIdHash := "eeeeffff00001111" }
        { currentRollNumber := 0,
          currentLogFilePath := "logs/2025-08-11-abcdef12.jsonl",
          fs := { files := [("logs/2025-08-11-abcdef12.jsonl", maxFileSize)] } }
        { eventType := "api_response", timestamp := 1723400000 }).1.fs.lookup
        "logs/2025-08-11-abcdef12.jsonl" = some maxFileSize := by
  have h := c3_roll_on_strict_overflow
    { telemetryEnabled := true, sessionId := "abcdef1234", dateStr := "2025-08-11",
      studentIdHash := "aaaabbbbccccdddd", machineIdHash := "eeeeffff00001111" }
    { currentRollNumber := 0,
      currentLogFilePath := "logs/2025-08-11-abcdef12.jsonl",
      fs := { files := [("logs/2025-08-11-abcdef12.jsonl", maxFileSize)] } }
    { eventType := "api_response", timestamp := 1723400000 }
    maxFileSize rfl (by decide) (by decide) (by decide)
  exact ⟨h.1, h.2.2.2⟩

/-- C4: curation passes user turns through unchanged, keeps each maximal run
of consecutive model turns only when every turn in the run is content-valid,
and on an invalid run drops the run together with the user turn immediately
preceding it: `extractCuratedHistory` agrees with the per-block fold
`curateBySpecRuns` on every history, and the concrete example
[user "hi", model "", user "new"] curates to just the new user turn. -/
theorem c4_curation_spec_decomposition :
    (∀ h : List Content, extractCuratedHistory h = curateBySpecRuns h)
    ∧ extractCuratedHistory [userText "hi", modelText "", userText "new"]
        = [userText "new"] := by
  constructor
  · intro h
    exact curateGo_eq_specFold h.length h [] le_rfl
  · decide

/-- C5: a response telemetry event is emitted only when usage metadata is
present - `_logApiResponse` emits nothing for a missing usage metadata and
exactly one event carrying it otherwise; the streaming path scans collected
chunks in reverse, picking the usage metadata of the last chunk that carries
one (`getFinalUsageMetadata` equals the last element of the filtered metadata
list), and emits exactly one or zero events accordingly. -/
theorem c5_response_event_iff_usage_metadata (cfg : ChatConfig) (st : ChatState) (durationMs : Nat)
    (promptId requestId : String) (inputContent : Content)
    (streamChunks : List Response) :
    (∀ response : Option ParsedResponse,
      (logApiResponse cfg st durationMs promptId requestId none response).2 = [])
    ∧ (∀ (usage : UsageMetadata) (response : Option ParsedResponse),
        (logApiResponse cfg st durationMs promptId requestId (some usage) response).2
          = [TelemetryEvent.apiResponse cfg.model durationMs promptId requestId
              cfg.authType usage (renderParsed response) (detectResponseType response)])
    ∧ getFinalUsageMetadata streamChunks
        = (streamChunks.filterMap fun c => c.usageMetadata).getLast?
    ∧ ((processStreamFinish cfg st inputContent streamChunks durationMs promptId
          requestId).2.length
        = if (getFinalUsageMetadata (processStreamCollect streamChunks).1).isSome
          then 1 else 0) := by
  refine ⟨fun response => rfl, fun usage response => rfl,
    getFinalUsageMetadata_eq_getLast streamChunks, ?_⟩
  unfold processStreamFinish
  cases hm : getFinalUsageMetadata (processStreamCollect streamChunks).1 with
  | none => simp [logApiResponse, hm]
  | some usage => simp [logApiResponse, hm]

/-- C6: when sendMessage fails unrecoverably (the transport error escapes the
retry policy), the emitted telemetry contains exactly one api_error event
carrying model, duration, error message and class, and auth mode, and the
session state - in particular the conversation history - is left unchanged:
neither the attempted user turn nor any model output is committed. -/
theorem c6_failure_single_error_event_history_unchanged (cfg : ChatConfig) (generationCfg : Option SystemInstruction)
    (st : ChatState) (userContent : Content) (promptId requestId : String)
    (transport : List Content → Except ErrInfo Response) (durationMs : Nat)
    (e : ErrInfo)
    (hfail : (sendMessage cfg generationCfg st userContent promptId requestId
        transport durationMs).1 = Except.error e) :
    (sendMessage cfg generationCfg st userContent promptId requestId
        transport durationMs).2.2.filter TelemetryEvent.isApiError
      = [TelemetryEvent.apiError cfg.model e.message durationMs promptId
          cfg.authType e.name]
    ∧ (sendMessage cfg generationCfg st userContent promptId requestId
        transport durationMs).2.1 = st := by
  unfold sendMessage at hfail ⊢
  cases houtcome : (if cfg.quotaErrorOccurred
      && ((if cfg.model = "" then DEFAULT_GEMINI_FLASH_MODEL else cfg.model)
        = DEFAULT_GEMINI_FLASH_MODEL : Bool)
    then Except.error
      { message := "Please submit a new query to continue with the Flash model."
        name := "Error" }
    else transport (extractCuratedHistory st.history ++ [userContent])) with
  | error e2 =>
    simp only [houtcome] at hfail ⊢
    cases hfail
    simp [logApiRequestEvents, logApiErrorEvents, TelemetryEvent.isApiError,
      List.filter]
  | ok response =>
    simp only [houtcome] at hfail
    simp at hfail

/-- C6 witness: a concrete failing transport yields exactly the one error
event and an unchanged empty history. -/
theorem c6_failure_single_error_event_history_unchanged_witness :
    ((sendMessage { model := "m1" } none { history := [] } (userText "x") "p" "r"
        (fun _ => Except.error { message := "boom", name := "TypeError" }) 42).1
      = Except.error { message := "boom", name := "TypeError" })
    ∧ (sendMessage { model := "m1" } none { history := [] } (userText "x") "p" "r"
        (fun _ => Except.error { message := "boom", name := "TypeError" }) 42).2.2.filter
        TelemetryEvent.isApiError
      = [TelemetryEvent.apiError "m1" "boom" 42 "p" none "TypeError"]
    ∧ (sendMessage { model := "m1" } none { history := [] } (userText "x") "p" "r"
        (fun _ => Except.error { message := "boom", name := "TypeError" }) 42).2.1
      = { history := [] } := by
  have h := c6_failure_single_error_event_history_unchanged { model := "m1" } none { history := [] } (userText "x") "p" "r"
    (fun _ => Except.error { message := "boom", name := "TypeError" }) 42
    { message := "boom", name := "TypeError" } rfl
  exact ⟨rfl, h.1, h.2⟩

/-- C7: history curation is idempotent - applying `extractCuratedHistory` to
its own output yields the same sequence as applying it once.  Every model turn
surviving one pass is content-valid, and a history whose model turns are all
valid is a fixed point of curation. -/
theorem c7_curation_idempotent (h : List Content) :
    extractCuratedHistory (extractCuratedHistory h) = extractCuratedHistory h := by
  have hvalid : ∀ c ∈ extractCuratedHistory h,
      isModelRole c = true → isValidContent c = true :=
    curateGo_output_valid h.length h [] (by simp)
  have hid := curateGo_all_valid (extractCuratedHistory h).length
    (extractCuratedHistory h) [] le_rfl hvalid
  simpa [extractCuratedHistory] using hid

/-- C8: tool prediction inspects only the most recent user turn of the
outgoing content set - two content lists whose reverse-search for the latest
user turn agree get identical predictions - returns a duplicate-free list of
matched tool names, and on the concrete examples: "read @notes.md" yields
["read_file"] and "hello, how are you" yields []. -/
theorem c8_tool_prediction_latest_user_turn (cs1 cs2 : List Content)
    (hsame : (cs1.reverse.find? fun c => c.role == Role.user)
        = (cs2.reverse.find? fun c => c.role == Role.user)) :
    extractToolsCalled cs1 = extractToolsCalled cs2
    ∧ (∀ cs : List Content, (extractToolsCalled cs).Nodup)
    ∧ extractToolsCalled [userText "read @notes.md"] = ["read_file"]
    ∧ extractToolsCalled [userText "hello, how are you"] = [] := by
  refine ⟨?_, extractToolsCalled_nodup, by decide, by decide⟩
  unfold extractToolsCalled
  rw [hsame]

/-- C8 witness: prepending an earlier model turn leaves the prediction of the
latest user turn unchanged, and the two concrete examples evaluate as claimed. -/
theorem c8_tool_prediction_latest_user_turn_witness :
    (([modelText "earlier", userText "read @notes.md"].reverse.find?
        fun c => c.role == Role.user)
      = ([userText "read @notes.md"].reverse.find? fun c => c.role == Role.user))
    ∧ extractToolsCalled [modelText "earlier", userText "read @notes.md"]
        = extractToolsCalled [userText "read @notes.md"]
    ∧ extractToolsCalled [userText "read @notes.md"] = ["read_file"]
    ∧ extractToolsCalled [userText "hello, how are you"] = [] := by
  have h := c8_tool_prediction_latest_user_turn [modelText "earlier", userText "read @notes.md"]
    [userText "read @notes.md"] (by decide)
  exact ⟨by decide, h.1, h.2.2.1, h.2.2.2⟩

/-- C9: getHistory returns a structurally independent deep copy -
`structuredClone` allocates only fresh cells, so cloning leaves every stored
value readable unchanged, the copy denotes the same values as the stored
history, and any mutation through an address reachable from the returned copy
leaves the values the session reads from its stored history unchanged. -/
theorem c9_getHistory_deep_copy_frame (h : Heap) (hist : List Nat) (m : HeapMutation)
    (hwf : heapWF h hist = true)
    (hm : m.target ∈ reachableAddrs (getHistoryClone h hist).1 (getHistoryClone h hist).2) :
    readHistoryVals (getHistoryClone h hist).1 hist = readHistoryVals h hist
    ∧ readHistoryVals (getHistoryClone h hist).1 (getHistoryClone h hist).2
        = readHistoryVals h hist
    ∧ readHistoryVals (applyMutation (getHistoryClone h hist).1 m) hist
        = readHistoryVals h hist := by
  have hb := heapWF_bounds hwf
  have hclone1 : readHistoryVals (getHistoryClone h hist).1 hist = readHistoryVals h hist := by
    unfold readHistoryVals
    refine List.map_congr_left ?_
    intro a ha
    refine readContentVal_eq_of_preserved a ?_ ?_
    · exact (cloneContentList_preserves hist h a (hb a ha).1).2
    · intro pa hpa
      exact (cloneContentList_preserves hist h pa ((hb a ha).2 pa hpa)).1
  have htarget : h.next ≤ m.target := by
    unfold reachableAddrs at hm
    rcases List.mem_append.mp hm with hm | hm
    · exact (cloneContentList_fresh hist h m.target hm).1
    · rcases List.mem_flatMap.mp hm with ⟨na, hna, hpa⟩
      exact (cloneContentList_parts_fresh hist h na hna m.target hpa).1
  refine ⟨hclone1, ?_, ?_⟩
  · unfold readHistoryVals getHistoryClone
    exact cloneContentList_vals hist h hb
  · unfold readHistoryVals
    refine List.map_congr_left ?_
    intro a ha
    have hcells : (getHistoryClone h hist).1.readCell a = h.readCell a := by
      unfold getHistoryClone Heap.readCell
      rw [(cloneContentList_preserves hist h a (hb a ha).1).2]
    have hstep : (applyMutation (getHistoryClone h hist).1 m).readContentVal a
        = (getHistoryClone h hist).1.readContentVal a := by
      refine readContentVal_eq_of_preserved a ?_ ?_
      · exact lookupContent_applyMutation_ne _ m a
          (Nat.ne_of_lt (lt_of_lt_of_le (hb a ha).1 htarget))
      · intro pa hpa
        rw [hcells] at hpa
        exact lookupPart_applyMutation_ne _ m pa
          (Nat.ne_of_lt (lt_of_lt_of_le ((hb a ha).2 pa hpa) htarget))
    rw [hstep]
    refine readContentVal_eq_of_preserved a ?_ ?_
    · exact (cloneContentList_preserves hist h a (hb a ha).1).2
    · intro pa hpa
      exact (cloneContentList_preserves hist h pa ((hb a ha).2 pa hpa)).1

/-- C9 witness: on a concrete one-turn heap, overwriting the cloned part
object leaves the session history values unchanged. -/
theorem c9_getHistory_deep_copy_frame_witness :
    (heapWF
      { contentStore := [(0, { role := Role.user, partAddrs := [1] })],
        partStore := [(1, { text := some "hi" })], next := 2 } [0] = true)
    ∧ ((HeapMutation.setPart 2 { text := some "changed" }).target
        ∈ reachableAddrs
          (getHistoryClone
            { contentStore := [(0, { role := Role.user, partAddrs := [1] })],
              partStore := [(1, { text := some "hi" })], next := 2 } [0]).1
          (getHistoryClone
            { contentStore := [(0, { role := Role.user, partAddrs := [1] })],
              partStore := [(1, { text := some "hi" })], next := 2 } [0]).2)
    ∧ readHistoryVals
        (applyMutation
          (getHistoryClone
            { contentStore := [(0, { role := Role.user, partAddrs := [1] })],
              partStore := [(1, { text := some "hi" })], next := 2 } [0]).1
          (HeapMutation.setPart 2 { text := some "changed" })) [0]
      = readHistoryVals
          { contentStore := [(0, { role := Role.user, partAddrs := [1] })],
            partStore := [(1, { text := some "hi" })], next := 2 } [0] := by
  have h := c9_getHistory_deep_copy_frame
    { contentStore := [(0, { role := Role.user, partAddrs := [1] })],
      partStore := [(1, { text := some "hi" })], next := 2 } [0]
    (HeapMutation.setPart 2 { text := some "changed" }) (by decide) (by decide)
  exact ⟨by decide, by decide, h.2.2⟩

/-- C10: when telemetry is disabled, `logEvent` is a complete no-op: the
logger state (active file path, roll number, file sizes) is returned unchanged
and no write is reported. -/
theorem c10_logEvent_disabled_noop (cfg : LoggerConfig) (st : LoggerState) (ev : BehaviorEvent)
    (hdisabled : cfg.telemetryEnabled = false) :
    logEvent cfg st ev = (st, none) := by
  simp [logEvent, hdisabled]

/-- C10 witness: a concrete disabled configuration leaves a concrete logger
state untouched. -/
theorem c10_logEvent_disabled_noop_witness :
    (({ telemetryEnabled := false, sessionId := "sess", dateStr := "2025-08-11",
        studentIdHash := "s", machineIdHash := "m" } : LoggerConfig).telemetryEnabled = false)
    ∧ logEvent
        { telemetryEnabled := false, sessionId := "sess", dateStr := "2025-08-11",
          studentIdHash := "s", machineIdHash := "m" }
        { currentRollNumber := 0, currentLogFilePath := "logs/x.jsonl",
          fs := { files := [] } }
        { eventType := "typing_start", timestamp := 5 }
      = ({ currentRollNumber := 0, currentLogFilePath := "logs/x.jsonl",
           fs := { files := [] } }, none) :=
  ⟨rfl, c10_logEvent_disabled_noop _ _ _ rfl⟩

end QwenCore
